import Mathlib

/-!
Verification of the Student Record Manager (src/student_manager.py).

The Python program keeps a dict mapping student-id strings to student
record dicts, persists it as a JSON document, and offers CRUD, search
and statistics operations.  We embed the store as an association list
preserving dict insertion order, Python values of the relevant kinds
(str / int / None) as `PyVal`, and each operation of the
`StudentRecordManager` class as a Lean function translated line by
line from the source.
-/

/-- Python values that occur in a student record or a criteria set:
strings, integers and `None`. -/
inductive PyVal where
  | str : String → PyVal
  | int : Int → PyVal
  | none : PyVal
deriving DecidableEq, Repr

/-- Python `str(v)` for the values we model (`str(None) = "None"`). -/
def pyStr : PyVal → String
  | PyVal.str s => s
  | PyVal.int n => toString n
  | PyVal.none => "None"

/-- Python truthiness of a value (`""`, `0` and `None` are falsy). -/
def pyTruthy : PyVal → Bool
  | PyVal.str s => !(s == "")
  | PyVal.int n => !(n == 0)
  | PyVal.none => false

/-- Python `==` on our values: equality inside a kind, and cross-kind
comparisons (str vs int, None vs anything else) are `False`. -/
def pyEq : PyVal → PyVal → Bool
  | PyVal.str a, PyVal.str b => a == b
  | PyVal.int a, PyVal.int b => a == b
  | PyVal.none, PyVal.none => true
  | _, _ => false

/-- A student record: the eight keys the code stores in each dict. -/
structure Student where
  id : PyVal
  name : PyVal
  age : PyVal
  grade : PyVal
  email : PyVal
  phone : PyVal
  created_at : PyVal
  updated_at : PyVal
deriving DecidableEq, Repr

/-- Python `student[key]` / `key in student` combined: the value under
a key of the record dict, `none` when the key is not a record field. -/
def getField (s : Student) (k : String) : Option PyVal :=
  if k = "id" then some s.id
  else if k = "name" then some s.name
  else if k = "age" then some s.age
  else if k = "grade" then some s.grade
  else if k = "email" then some s.email
  else if k = "phone" then some s.phone
  else if k = "created_at" then some s.created_at
  else if k = "updated_at" then some s.updated_at
  else Option.none

/-- `self.students[student_id][field] = value` for the updatable
fields.  `update_student` only calls this for fields of the
allow-list, so other keys leave the record unchanged. -/
def setField (s : Student) (f : String) (v : PyVal) : Student :=
  if f = "name" then { s with name := v }
  else if f = "age" then { s with age := v }
  else if f = "grade" then { s with grade := v }
  else if f = "email" then { s with email := v }
  else if f = "phone" then { s with phone := v }
  else s

/-- The store's dict as an association list in insertion order. -/
abbrev Store : Type := List (String × Student)

/-- Python `key in dict`. -/
def hasKey (l : Store) (k : String) : Bool :=
  l.any (fun e => e.1 == k)

/-- Python `dict.get(key, None)`: value of the first (only) entry with
the key. -/
def lookupKey : Store → String → Option Student
  | [], _ => Option.none
  | e :: rest, key => if e.1 = key then some e.2 else lookupKey rest key

/-- Replace the value of every entry carrying key `sid` by the image
of `f`, in place (there is at most one such entry in a dict). -/
def mapUpd (l : Store) (sid : String) (f : Student → Student) : Store :=
  l.map (fun e => if e.1 = sid then (e.1, f e.2) else e)

/-- Python `dict[key] = value`: replace in place when the key exists,
append otherwise. -/
def dictInsert (l : Store) (k : String) (v : Student) : Store :=
  if hasKey l k then mapUpd l k (fun _ => v)
  else l ++ [(k, v)]

/-- The manager's state: the in-memory dict `self.students` together
with the persisted content of the backing file. -/
structure MState where
  students : Store
  file : Store
deriving DecidableEq

/-- `save_records`: serialize the full mapping to the backing file,
overwriting it. -/
def save (st : MState) : MState :=
  { st with file := st.students }

/-! ### Digits, parsing and the id format

`generate_id` parses `sid[3:]` with Python `int(...)` and prints the
successor with `f"STU{new_id:03d}"`.  We model decimal parsing and
printing over character lists. -/

/-- The decimal digit characters. -/
def digitChar (d : Nat) : Char :=
  if d = 0 then '0' else if d = 1 then '1' else if d = 2 then '2'
  else if d = 3 then '3' else if d = 4 then '4' else if d = 5 then '5'
  else if d = 6 then '6' else if d = 7 then '7' else if d = 8 then '8'
  else if d = 9 then '9' else '0'

/-- Value of a decimal digit character, `none` on any other character. -/
def digitVal (c : Char) : Option Nat :=
  if c = '0' then some 0 else if c = '1' then some 1
  else if c = '2' then some 2 else if c = '3' then some 3
  else if c = '4' then some 4 else if c = '5' then some 5
  else if c = '6' then some 6 else if c = '7' then some 7
  else if c = '8' then some 8 else if c = '9' then some 9
  else Option.none

/-- Fold a digit string onto an accumulator, failing on a non-digit. -/
def parseDigitsAux (acc : Nat) : List Char → Option Nat
  | [] => some acc
  | c :: cs =>
    match digitVal c with
    | some d => parseDigitsAux (acc * 10 + d) cs
    | Option.none => Option.none

/-- A non-empty all-digit string parsed as a natural number. -/
def parseDigits : List Char → Option Nat
  | [] => Option.none
  | c :: cs => parseDigitsAux 0 (c :: cs)

/-- Python `int(s)` restricted to an optional sign followed by decimal
digits; `none` models the `ValueError` on anything else (such as the
empty string or letters). -/
def pyInt (cs : List Char) : Option Int :=
  match cs with
  | [] => Option.none
  | c :: rest =>
    if c = '-' then (parseDigits rest).map (fun n => -(n : Int))
    else if c = '+' then (parseDigits rest).map (fun n => (n : Int))
    else (parseDigits (c :: rest)).map (fun n => (n : Int))

/-- Decimal digits of `n`, most significant first, with `fuel`
bounding the recursion depth (any `fuel ≥ n ≥ 1` is enough). -/
def natPrintAux : Nat → Nat → List Char
  | 0, _ => []
  | fuel + 1, n =>
    if n = 0 then [] else natPrintAux fuel (n / 10) ++ [digitChar (n % 10)]

/-- Decimal representation of a natural number. -/
def natPrint (n : Nat) : List Char :=
  if n = 0 then ['0'] else natPrintAux n n

/-- Left-pad with `'0'` to width `w`, as the format spec `0w d` does. -/
def padZeros (w : Nat) (cs : List Char) : List Char :=
  List.replicate (w - cs.length) '0' ++ cs

/-- The id string `"STU"` followed by the suffix zero-padded to 3. -/
def mkIdNat (n : Nat) : String :=
  ⟨'S' :: 'T' :: 'U' :: padZeros 3 (natPrint n)⟩

/-- Python `f"STU{n:03d}"`: for a negative suffix the sign counts
toward the width, so the digits are padded to 2. -/
def formatId (n : Int) : String :=
  if n < 0 then ⟨'S' :: 'T' :: 'U' :: '-' :: padZeros 2 (natPrint n.natAbs)⟩
  else mkIdNat n.toNat

/-- `sid.startswith("STU")`. -/
def startsWithSTU (s : String) : Bool :=
  ['S', 'T', 'U'].isPrefixOf s.data

/-- The list comprehension
`[int(sid[3:]) for sid in self.students.keys() if sid.startswith("STU")]`:
`none` models the `ValueError` raised when some matching key has an
unparseable suffix. -/
def suffixList : List String → Option (List Int)
  | [] => some []
  | k :: ks =>
    if startsWithSTU k then
      match pyInt (k.data.drop 3), suffixList ks with
      | some n, some rest => some (n :: rest)
      | _, _ => Option.none
    else suffixList ks

/-- `if ids: new_id = max(ids) + 1 else: new_id = 1`. -/
def newIdOf : List Int → Int
  | [] => 1
  | x :: xs => xs.foldl max x + 1

/-- `generate_id`: `"STU001"` on an empty store, otherwise one more
than the maximum parsed suffix (`1` when no key matches the prefix),
formatted with `f"STU{new_id:03d}"`. -/
def generate_id (store : Store) : Option String :=
  if store.isEmpty then some "STU001"
  else
    match suffixList (store.map Prod.fst) with
    | Option.none => Option.none
    | some ids => some (formatId (newIdOf ids))

/-- `add_student`: generate an id, build the record with both
timestamps set to the current time, insert, persist, return the id.
`none` models the exception `generate_id` can raise. -/
def add_student (st : MState) (name age grade email phone : PyVal)
    (now : String) : Option (MState × String) :=
  match generate_id st.students with
  | Option.none => Option.none
  | some sid =>
    let s : Student :=
      ⟨PyVal.str sid, name, age, grade, email, phone,
        PyVal.str now, PyVal.str now⟩
    some (save ⟨dictInsert st.students sid s, st.file⟩, sid)

/-- The allow-list `valid_fields` of `update_student`. -/
def valid_fields : List String :=
  ["name", "age", "grade", "email", "phone"]

/-- The update loop: apply, in order, each supplied pair whose field is
in the allow-list and whose value is not `None`. -/
def applyFields (s : Student) : List (String × PyVal) → Student
  | [] => s
  | (f, v) :: rest =>
    applyFields
      (if valid_fields.contains f && !(v == PyVal.none) then setField s f v
       else s) rest

/-- The whole mutation `update_student` performs on the found record:
the field loop followed by the unconditional refresh of `updated_at`. -/
def applyUpdate (s : Student) (kwargs : List (String × PyVal))
    (now : String) : Student :=
  { applyFields s kwargs with updated_at := PyVal.str now }

/-- `update_student`: not-found gives `false` and leaves the state
untouched; otherwise mutate the record in place, persist, return
`true`. -/
def update_student (st : MState) (sid : String)
    (kwargs : List (String × PyVal)) (now : String) : MState × Bool :=
  if hasKey st.students sid then
    (save ⟨mapUpd st.students sid (fun s => applyUpdate s kwargs now),
      st.file⟩, true)
  else (st, false)

/-- `delete_student`: remove the entry if present and persist. -/
def delete_student (st : MState) (sid : String) : MState × Bool :=
  if hasKey st.students sid then
    (save ⟨st.students.filter (fun e => !(e.1 == sid)), st.file⟩, true)
  else (st, false)

/-- `get_student`: `self.students.get(student_id, None)`. -/
def get_student (store : Store) (sid : String) : Option Student :=
  lookupKey store sid

/-! ### Search -/

/-- `value.lower() in str(field).lower()` — Python substring test on
the lowercased strings, over character lists. -/
def subListOf (needle : List Char) : List Char → Bool
  | [] => needle.isEmpty
  | c :: rest => needle.isPrefixOf (c :: rest) || subListOf needle rest

/-- Case-insensitive containment of `needle` in `hay`. -/
def lowerContainsIn (needle hay : String) : Bool :=
  subListOf (needle.data.map Char.toLower) (hay.data.map Char.toLower)

/-- `isinstance(value, str) and value.lower() not in str(field).lower()`. -/
def isStrNotContained (v fv : PyVal) : Bool :=
  match v with
  | PyVal.str vs => !(lowerContainsIn vs (pyStr fv))
  | _ => false

/-- One pass of the inner criteria loop of `search_students`: `true`
when the criterion sets `match = False` (and breaks).  A criterion
whose key is not in the record, or whose value is falsy, is skipped. -/
def critFails (s : Student) (k : String) (v : PyVal) : Bool :=
  match getField s k with
  | Option.none => false
  | some fv =>
    if pyTruthy v then
      if isStrNotContained v fv then true
      else if pyEq fv v then false else true
    else false

/-- The criteria loop with its early `break`. -/
def matchesAll (s : Student) : List (String × PyVal) → Bool
  | [] => true
  | (k, v) :: rest => if critFails s k v then false else matchesAll s rest

/-- `search_students`: the records (in store order) surviving every
supplied criterion. -/
def search_students (store : Store) (criteria : List (String × PyVal)) :
    List Student :=
  (store.map Prod.snd).filter (fun s => matchesAll s criteria)

/-- `get_all_students`: `list(self.students.values())`. -/
def get_all_students (store : Store) : List Student :=
  store.map Prod.snd

/-! ### Statistics -/

/-- The result dict of `get_statistics`. -/
structure Stats where
  total_students : Nat
  average_age : ℚ
  grade_distribution : List (PyVal × Nat)
deriving DecidableEq

/-- `[student['age'] for student in self.students.values()]` together
with the `sum(ages)` requirement that every age be an integer:
`none` models the `TypeError` on a non-int age. -/
def agesOf : Store → Option (List Int)
  | [] => some []
  | e :: rest =>
    match e.2.age, agesOf rest with
    | PyVal.int n, some l => some (n :: l)
    | _, _ => Option.none

/-- `grades[grade] = grades.get(grade, 0) + 1` on the distribution
dict. -/
def bumpGrade (acc : List (PyVal × Nat)) (g : PyVal) : List (PyVal × Nat) :=
  if acc.any (fun p => p.1 == g) then
    acc.map (fun p => if p.1 = g then (p.1, p.2 + 1) else p)
  else acc ++ [(g, 1)]

/-- The grade-distribution loop of `get_statistics`. -/
def gradeDist (store : Store) : List (PyVal × Nat) :=
  (store.map (fun e => e.2.grade)).foldl bumpGrade []

/-- Lookup in the distribution dict, 0 when the grade is absent. -/
def distCount : List (PyVal × Nat) → PyVal → Nat
  | [], _ => 0
  | p :: rest, g => if p.1 = g then p.2 else distCount rest g

/-- Round half to even at integer precision, as Python `round` does. -/
def roundHalfEven (q : ℚ) : Int :=
  let f : Int := ⌊q⌋
  if q - f < 1 / 2 then f
  else if (1 : ℚ) / 2 < q - f then f + 1
  else if f % 2 = 0 then f else f + 1

/-- Python `round(x, 2)` idealized over the rationals. -/
def round2 (q : ℚ) : ℚ :=
  (roundHalfEven (q * 100) : ℚ) / 100

/-- `get_statistics`: zeros on an empty store, otherwise the count,
the rounded mean age and the grade distribution.  `none` models the
`TypeError` `sum` raises on a non-integer age. -/
def get_statistics (store : Store) : Option Stats :=
  if store.isEmpty then some ⟨0, 0, []⟩
  else
    match agesOf store with
    | Option.none => Option.none
    | some ages =>
      some ⟨store.length,
        round2 ((ages.foldl (· + ·) 0 : Int) / (store.length : ℚ)),
        gradeDist store⟩

/-! ### The persisted JSON document

`save_records` writes `json.dump(self.students, file)` and
`load_records` reads it back with `json.load`.  We model the document
as a JSON value and the read-back of a saved store. -/

/-- JSON values of the shapes the program writes. -/
inductive Jv where
  | null : Jv
  | str : String → Jv
  | num : Int → Jv
  | obj : List (String × Jv) → Jv

/-- JSON encoding of a record field value. -/
def pvToJ : PyVal → Jv
  | PyVal.none => Jv.null
  | PyVal.str s => Jv.str s
  | PyVal.int n => Jv.num n

/-- Reading a field value back from JSON. -/
def jToPv : Jv → Option PyVal
  | Jv.null => some PyVal.none
  | Jv.str s => some (PyVal.str s)
  | Jv.num n => some (PyVal.int n)
  | Jv.obj _ => Option.none

/-- The JSON object `json.dump` writes for one student dict. -/
def studentToJ (s : Student) : Jv :=
  Jv.obj [("id", pvToJ s.id), ("name", pvToJ s.name), ("age", pvToJ s.age),
    ("grade", pvToJ s.grade), ("email", pvToJ s.email),
    ("phone", pvToJ s.phone), ("created_at", pvToJ s.created_at),
    ("updated_at", pvToJ s.updated_at)]

/-- Reading one student dict back from the saved document shape. -/
def jToStudent : Jv → Option Student
  | Jv.obj [("id", a), ("name", b), ("age", c), ("grade", d), ("email", e),
      ("phone", f), ("created_at", g), ("updated_at", h)] =>
    match jToPv a, jToPv b, jToPv c, jToPv d,
        jToPv e, jToPv f, jToPv g, jToPv h with
    | some a1, some b1, some c1, some d1,
        some e1, some f1, some g1, some h1 =>
      some ⟨a1, b1, c1, d1, e1, f1, g1, h1⟩
    | _, _, _, _, _, _, _, _ => Option.none
  | _ => Option.none

/-- The document `save_records` writes: the top-level object mapping
each identifier to its record object, in dict order. -/
def save_records (store : Store) : Jv :=
  Jv.obj (store.map (fun e => (e.1, studentToJ e.2)))

/-- Reading the entries of the top-level object back. -/
def entriesFromJ : List (String × Jv) → Option Store
  | [] => some []
  | (k, j) :: rest =>
    match jToStudent j, entriesFromJ rest with
    | some s, some st => some ((k, s) :: st)
    | _, _ => Option.none

/-- `load_records` on a present, well-formed document: the mapping it
denotes; `none` when the document does not have the saved shape (the
code would then degrade to an empty store). -/
def load_records (j : Jv) : Option Store :=
  match j with
  | Jv.obj entries => entriesFromJ entries
  | _ => Option.none

/-! ### Concrete stores used by the theorems -/

/-- A record as `add_student` builds it. -/
def mkStudent (sid nm : String) (ag : Int) (gr : String) : Student :=
  ⟨PyVal.str sid, PyVal.str nm, PyVal.int ag, PyVal.str gr,
    PyVal.none, PyVal.none, PyVal.str "2024-01-01 00:00:00",
    PyVal.str "2024-01-01 00:00:00"⟩

/-- A one-record store holding Alice. -/
def aliceStore : Store :=
  [("STU001", mkStudent "STU001" "Alice" 20 "A")]

/-- A store whose only key matches the prefix but has a non-numeric
suffix, as a loaded or restored JSON document can contain. -/
def dentStore : Store :=
  [("STUdent", mkStudent "STUdent" "Dent" 30 "B")]

/-- The three-record store of the statistics example: ages 10, 20, 15
and grades A, A, B. -/
def statsStore : Store :=
  [("STU001", mkStudent "STU001" "P" 10 "A"),
   ("STU002", mkStudent "STU002" "Q" 20 "A"),
   ("STU003", mkStudent "STU003" "R" 15 "B")]

/-- The empty manager state. -/
def emptyState : MState := ⟨[], []⟩

/-- `N` consecutive `add_student` calls on an initially empty store
(with fixed field arguments); a failing add leaves the state as it
was. -/
def addN : Nat → MState
  | 0 => emptyState
  | n + 1 =>
    match add_student (addN n) (PyVal.str "N") (PyVal.int 10)
        (PyVal.str "A") PyVal.none PyVal.none "t" with
    | some (st, _) => st
    | Option.none => addN n

/-- The identifiers `STU001 … STU00N` issued by `N` adds. -/
def idsUpTo (n : Nat) : List String :=
  (List.range n).map (fun i => mkIdNat (i + 1))

/-- Their numeric suffixes `1 … N`. -/
def suffInts (n : Nat) : List Int :=
  (List.range n).map (fun (i : Nat) => ((i : Int) + 1))

/-- The invariant of claim C9: each record's `id` field equals its key
in the mapping, and the keys are pairwise distinct. -/
def StoreInv (st : MState) : Prop :=
  (∀ e ∈ st.students, e.2.id = PyVal.str e.1) ∧
    (st.students.map Prod.fst).Nodup

/-! ## Lemmas about decimal printing and parsing -/

theorem digitVal_digitChar (d : Nat) (h : d < 10) :
    digitVal (digitChar d) = some d := by
  interval_cases d <;> rfl

theorem parseDigitsAux_append (cs ds : List Char) :
    ∀ acc, parseDigitsAux acc (cs ++ ds) =
      match parseDigitsAux acc cs with
      | some a => parseDigitsAux a ds
      | Option.none => Option.none := by
  induction cs with
  | nil => intro acc; rfl
  | cons c cs ih =>
    intro acc
    simp only [List.cons_append, parseDigitsAux]
    cases digitVal c with
    | none => rfl
    | some d => exact ih _

theorem natPrintAux_zero (fuel : Nat) : natPrintAux fuel 0 = [] := by
  cases fuel <;> rfl

theorem natPrintAux_parse (fuel : Nat) :
    ∀ n acc, 0 < n → n ≤ fuel →
      parseDigitsAux acc (natPrintAux fuel n) =
        some (acc * 10 ^ (natPrintAux fuel n).length + n) := by
  induction fuel with
  | zero => intro n acc hn hle; omega
  | succ fuel ih =>
    intro n acc hn hle
    have hne : ¬ n = 0 := by omega
    simp only [natPrintAux, hne, if_false]
    by_cases hq : n / 10 = 0
    · have h10 : n < 10 := by omega
      have hmod : n % 10 = n := Nat.mod_eq_of_lt h10
      rw [hq, natPrintAux_zero, List.nil_append]
      simp only [parseDigitsAux, digitVal_digitChar (n % 10) (Nat.mod_lt n (by omega)),
        List.length_cons, List.length_nil]
      rw [hmod]
      norm_num
    · have hq1 : 0 < n / 10 := Nat.pos_of_ne_zero hq
      have hq2 : n / 10 ≤ fuel := by
        have := Nat.div_lt_self (by omega : 0 < n) (by omega : 1 < 10)
        omega
      rw [parseDigitsAux_append]
      rw [ih (n / 10) acc hq1 hq2]
      simp only [parseDigitsAux, digitVal_digitChar (n % 10) (Nat.mod_lt n (by omega)),
        List.length_append, List.length_cons, List.length_nil]
      congr 1
      have hd : n / 10 * 10 + n % 10 = n := Nat.div_add_mod' n 10
      rw [pow_succ]
      generalize 10 ^ (natPrintAux fuel (n / 10)).length = A
      have : acc * (A * 10) = acc * A * 10 := by ring
      rw [this]
      omega

theorem natPrintAux_ne_nil (fuel n : Nat) (hn : 0 < n) (hle : n ≤ fuel) :
    natPrintAux fuel n ≠ [] := by
  cases fuel with
  | zero => omega
  | succ fuel =>
    have hne : ¬ n = 0 := by omega
    simp only [natPrintAux, hne, if_false]
    intro h
    rcases List.append_eq_nil.mp h with ⟨_, h2⟩
    exact List.cons_ne_nil _ _ h2

theorem natPrint_ne_nil (n : Nat) : natPrint n ≠ [] := by
  by_cases h : n = 0
  · subst h; simp [natPrint]
  · simp only [natPrint, h, if_false]
    exact natPrintAux_ne_nil n n (by omega) le_rfl

theorem parseDigitsAux_natPrint (n : Nat) :
    parseDigitsAux 0 (natPrint n) = some n := by
  by_cases h : n = 0
  · subst h; rfl
  · simp only [natPrint, h, if_false]
    rw [natPrintAux_parse n n 0 (by omega) le_rfl]
    simp

theorem parseDigitsAux_zeros (k : Nat) (cs : List Char) :
    parseDigitsAux 0 (List.replicate k '0' ++ cs) = parseDigitsAux 0 cs := by
  induction k with
  | zero => rfl
  | succ k ih => simpa [List.replicate_succ, parseDigitsAux, digitVal] using ih

theorem digit_mem_natPrintAux (fuel : Nat) :
    ∀ n c, c ∈ natPrintAux fuel n → (digitVal c).isSome := by
  induction fuel with
  | zero => intro n c h; simp [natPrintAux] at h
  | succ fuel ih =>
    intro n c h
    by_cases hn : n = 0
    · subst hn; simp [natPrintAux] at h
    · simp only [natPrintAux, hn, if_false, List.mem_append, List.mem_singleton] at h
      rcases h with h | h
      · exact ih _ _ h
      · subst h
        rw [digitVal_digitChar (n % 10) (Nat.mod_lt n (by omega))]
        rfl

theorem digit_mem_padded (w n : Nat) (c : Char)
    (h : c ∈ padZeros w (natPrint n)) : (digitVal c).isSome := by
  simp only [padZeros, List.mem_append, List.mem_replicate] at h
  rcases h with ⟨_, h⟩ | h
  · subst h; rfl
  · by_cases hn : n = 0
    · subst hn
      simp [natPrint] at h
      subst h; rfl
    · simp only [natPrint, hn, if_false] at h
      exact digit_mem_natPrintAux n n c h

theorem parseDigits_padded (w n : Nat) :
    parseDigits (padZeros w (natPrint n)) = some n := by
  have hne : padZeros w (natPrint n) ≠ [] := by
    simp only [padZeros]
    intro h
    exact natPrint_ne_nil n (List.append_eq_nil.mp h).2
  rcases hcs : padZeros w (natPrint n) with _ | ⟨c, rest⟩
  · exact absurd hcs hne
  · show parseDigitsAux 0 (c :: rest) = some n
    rw [← hcs]
    show parseDigitsAux 0 (List.replicate (w - (natPrint n).length) '0' ++ natPrint n) = some n
    rw [parseDigitsAux_zeros, parseDigitsAux_natPrint]

theorem pyInt_padded (w n : Nat) :
    pyInt (padZeros w (natPrint n)) = some (n : Int) := by
  rcases hcs : padZeros w (natPrint n) with _ | ⟨c, rest⟩
  · exfalso
    have h2 : List.replicate (w - (natPrint n).length) '0' ++ natPrint n = [] := hcs
    exact natPrint_ne_nil n (List.append_eq_nil.mp h2).2
  · have hdig : (digitVal c).isSome := by
      apply digit_mem_padded w n
      rw [hcs]; exact List.mem_cons_self _ _
    have hm : c ≠ '-' := by intro h; subst h; simp [digitVal] at hdig
    have hp : c ≠ '+' := by intro h; subst h; simp [digitVal] at hdig
    simp only [pyInt, hcs, if_neg hm, if_neg hp]
    rw [← hcs, parseDigits_padded]
    rfl

/-! ## Lemmas about the id format and `generate_id` -/

theorem mkIdNat_data (n : Nat) :
    (mkIdNat n).data = 'S' :: 'T' :: 'U' :: padZeros 3 (natPrint n) := rfl

theorem pyInt_mkIdNat (n : Nat) :
    pyInt ((mkIdNat n).data.drop 3) = some (n : Int) := by
  rw [mkIdNat_data]
  show pyInt (padZeros 3 (natPrint n)) = some (n : Int)
  exact pyInt_padded 3 n

theorem startsWithSTU_mkIdNat (n : Nat) : startsWithSTU (mkIdNat n) = true := by
  rw [startsWithSTU, mkIdNat_data]
  simp [List.isPrefixOf]

theorem mkIdNat_inj {a b : Nat} (h : mkIdNat a = mkIdNat b) : a = b := by
  have h2 := congrArg (fun s => pyInt (String.data s |>.drop 3)) h
  simp only [pyInt_mkIdNat] at h2
  exact_mod_cast Option.some.inj h2

theorem formatId_natCast (n : Nat) : formatId (n : Int) = mkIdNat n := by
  simp [formatId]

theorem formatId_one : formatId 1 = "STU001" := rfl

/-- `x` is a lower bound of the fold that starts at `x`. -/
theorem le_foldl_max (xs : List Int) : ∀ x : Int, x ≤ xs.foldl max x := by
  induction xs with
  | nil => intro x; exact le_rfl
  | cons y ys ih =>
    intro x
    exact le_trans (le_max_left x y) (ih (max x y))

/-- every member of the list is bounded by the fold. -/
theorem mem_le_foldl_max (xs : List Int) :
    ∀ x y : Int, y ∈ xs → y ≤ xs.foldl max x := by
  induction xs with
  | nil => intro x y h; simp at h
  | cons z zs ih =>
    intro x y h
    rcases List.mem_cons.mp h with h | h
    · subst h
      exact le_trans (le_max_right x y) (le_foldl_max zs (max x y))
    · exact ih (max x z) y h

/-- the fold is attained: it is the start or some member. -/
theorem foldl_max_attained (xs : List Int) :
    ∀ x : Int, xs.foldl max x = x ∨ xs.foldl max x ∈ xs := by
  induction xs with
  | nil => intro x; left; rfl
  | cons z zs ih =>
    intro x
    rcases ih (max x z) with h | h
    · rcases max_cases x z with ⟨he, _⟩ | ⟨he, _⟩
      · left; rw [List.foldl_cons, h, he]
      · right; rw [List.foldl_cons, h, he]; exact List.mem_cons_self _ _
    · right; exact List.mem_cons_of_mem z h

theorem suffixList_append (l1 l2 : List String) :
    suffixList (l1 ++ l2) =
      match suffixList l1, suffixList l2 with
      | some a, some b => some (a ++ b)
      | _, _ => Option.none := by
  induction l1 with
  | nil =>
    simp only [List.nil_append, suffixList]
    cases suffixList l2 <;> rfl
  | cons k ks ih =>
    rw [List.cons_append]
    simp only [suffixList, List.append_eq, ih]
    by_cases hs : startsWithSTU k
    · simp only [hs, if_true]
      cases pyInt (k.data.drop 3) <;> cases suffixList ks <;> cases suffixList l2 <;> rfl
    · simp [hs]

theorem suffixList_isSome (keys : List String)
    (h : ∀ k ∈ keys, startsWithSTU k = true → (pyInt (k.data.drop 3)).isSome) :
    (suffixList keys).isSome := by
  induction keys with
  | nil => rfl
  | cons k ks ih =>
    have hks := ih (fun k2 hk2 => h k2 (List.mem_cons_of_mem k hk2))
    simp only [suffixList]
    by_cases hs : startsWithSTU k
    · have hk := h k (List.mem_cons_self k ks) hs
      simp only [hs, if_true]
      rcases Option.isSome_iff_exists.mp hk with ⟨n, hn⟩
      rcases Option.isSome_iff_exists.mp hks with ⟨rest, hrest⟩
      rw [hn, hrest]
      rfl
    · simp only [hs, if_false]
      exact hks

theorem suffixList_idsUpTo (n : Nat) :
    suffixList (idsUpTo n) = some (suffInts n) := by
  induction n with
  | zero => rfl
  | succ n ih =>
    have h1 : idsUpTo (n + 1) = idsUpTo n ++ [mkIdNat (n + 1)] := by
      simp [idsUpTo, List.range_succ]
    have h2 : suffInts (n + 1) = suffInts n ++ [(n : Int) + 1] := by
      simp [suffInts, List.range_succ]
    rw [h1, suffixList_append, ih, h2]
    simp only [suffixList, startsWithSTU_mkIdNat, if_true, pyInt_mkIdNat]
    push_cast
    rfl

theorem newIdOf_suffInts (n : Nat) : newIdOf (suffInts (n + 1)) = (n : Int) + 2 := by
  induction n with
  | zero => rfl
  | succ n ih =>
    have h3 : ((n + 1 : Nat) : Int) + 1 = (n : Int) + 2 := by push_cast; ring
    have h2 : suffInts (n + 2) = suffInts (n + 1) ++ [(n : Int) + 2] := by
      show (List.range (n + 2)).map (fun (i : Nat) => ((i : Int) + 1)) =
        (List.range (n + 1)).map (fun (i : Nat) => ((i : Int) + 1)) ++ [(n : Int) + 2]
      rw [List.range_succ, List.map_append]
      simp only [List.map_cons, List.map_nil, h3]
    rcases hsi : suffInts (n + 1) with _ | ⟨x, xs⟩
    · have hlen : (suffInts (n + 1)).length = n + 1 := by
        rw [suffInts, List.length_map, List.length_range]
      rw [hsi] at hlen
      simp at hlen
    · rw [hsi] at ih h2
      rw [h2]
      have hih : xs.foldl max x + 1 = (n : Int) + 2 := ih
      show (xs ++ [(n : Int) + 2]).foldl max x + 1 = ((n + 1 : Nat) : Int) + 2
      rw [List.foldl_append]
      simp only [List.foldl_cons, List.foldl_nil]
      rw [max_eq_right (by omega : xs.foldl max x ≤ (n : Int) + 2)]
      push_cast
      ring

theorem hasKey_iff (l : Store) (k : String) :
    hasKey l k = true ↔ k ∈ l.map Prod.fst := by
  simp [hasKey, List.any_eq_true, List.mem_map]

theorem hasKey_eq_false (l : Store) (k : String)
    (h : k ∉ l.map Prod.fst) : hasKey l k = false := by
  rcases hb : hasKey l k with _ | _
  · rfl
  · exact absurd ((hasKey_iff l k).mp hb) h

theorem idsUpTo_succ (n : Nat) :
    idsUpTo (n + 1) = idsUpTo n ++ [mkIdNat (n + 1)] := by
  show (List.range (n + 1)).map (fun i => mkIdNat (i + 1)) =
    (List.range n).map (fun i => mkIdNat (i + 1)) ++ [mkIdNat (n + 1)]
  rw [List.range_succ, List.map_append]
  rfl

theorem idsUpTo_length (n : Nat) : (idsUpTo n).length = n := by
  rw [idsUpTo, List.length_map, List.length_range]

theorem mkIdNat_notMem_idsUpTo (n : Nat) : mkIdNat (n + 1) ∉ idsUpTo n := by
  intro h
  rcases List.mem_map.mp h with ⟨i, hi, heq⟩
  have : i + 1 = n + 1 := mkIdNat_inj heq
  have : i = n := by omega
  subst this
  exact absurd (List.mem_range.mp hi) (lt_irrefl i)

/-- From the store's keys we can read off the id `generate_id` makes:
with keys `STU001 … STU00N` it produces `STU` followed by `N + 1`. -/
theorem gen_from_keys (store : Store) (n : Nat)
    (hk : store.map Prod.fst = idsUpTo n) :
    generate_id store = some (mkIdNat (n + 1)) := by
  cases n with
  | zero =>
    have : store = [] := by
      cases store with
      | nil => rfl
      | cons e rest =>
        exfalso
        have := congrArg List.length hk
        rw [idsUpTo_length] at this
        simp at this
    subst this
    rfl
  | succ n =>
    cases store with
    | nil =>
      exfalso
      have := congrArg List.length hk
      rw [idsUpTo_length] at this
      simp at this
    | cons e rest =>
      show (match suffixList ((e :: rest).map Prod.fst) with
        | Option.none => Option.none
        | some ids => some (formatId (newIdOf ids))) = some (mkIdNat (n + 2))
      rw [hk, suffixList_idsUpTo]
      show some (formatId (newIdOf (suffInts (n + 1)))) = some (mkIdNat (n + 2))
      rw [newIdOf_suffInts]
      have hc : (n : Int) + 2 = ((n + 2 : Nat) : Int) := by push_cast; ring
      rw [hc, formatId_natCast]

theorem addN_keys (n : Nat) : (addN n).students.map Prod.fst = idsUpTo n := by
  induction n with
  | zero => rfl
  | succ n ih =>
    have hgen : generate_id (addN n).students = some (mkIdNat (n + 1)) :=
      gen_from_keys _ n ih
    have hfresh : hasKey (addN n).students (mkIdNat (n + 1)) = false := by
      apply hasKey_eq_false
      rw [ih]
      exact mkIdNat_notMem_idsUpTo n
    show (match add_student (addN n) (PyVal.str "N") (PyVal.int 10)
        (PyVal.str "A") PyVal.none PyVal.none "t" with
      | some (st, _) => st
      | Option.none => addN n).students.map Prod.fst = idsUpTo (n + 1)
    rw [add_student, hgen]
    show (save ⟨dictInsert (addN n).students (mkIdNat (n + 1)) _,
      (addN n).file⟩).students.map Prod.fst = idsUpTo (n + 1)
    rw [save, dictInsert, hfresh]
    show ((addN n).students ++ [(mkIdNat (n + 1), _)]).map Prod.fst = idsUpTo (n + 1)
    rw [List.map_append, ih, idsUpTo_succ]
    rfl

theorem generate_id_addN (n : Nat) :
    generate_id (addN n).students = some (mkIdNat (n + 1)) :=
  gen_from_keys _ n (addN_keys n)

/-! ## Lemmas about lookup, in-place update and the invariants -/

theorem hasKey_of_lookup (l : Store) (k : String) (s : Student)
    (h : lookupKey l k = some s) : hasKey l k = true := by
  induction l with
  | nil => simp [lookupKey] at h
  | cons e rest ih =>
    by_cases he : e.1 = k
    · simp [hasKey, List.any_cons, he]
    · simp only [lookupKey, he, if_false] at h
      show ((e.1 == k) || hasKey rest k) = true
      rw [ih h, Bool.or_true]

theorem lookupKey_mapUpd_self (l : Store) (sid : String) (f : Student → Student) :
    lookupKey (mapUpd l sid f) sid = (lookupKey l sid).map f := by
  induction l with
  | nil => rfl
  | cons e rest ih =>
    by_cases he : e.1 = sid
    · simp [mapUpd, lookupKey, he]
    · simp only [mapUpd, List.map_cons, he, if_false] at ih ⊢
      simp only [lookupKey, he, if_false]
      exact ih

theorem lookupKey_mapUpd_ne (l : Store) (sid k : String) (f : Student → Student)
    (hk : k ≠ sid) :
    lookupKey (mapUpd l sid f) k = lookupKey l k := by
  induction l with
  | nil => rfl
  | cons e rest ih =>
    by_cases he : e.1 = sid
    · have hsk : ¬ sid = k := fun h2 => hk h2.symm
      simp only [mapUpd, List.map_cons, lookupKey, he, eq_self_iff_true, if_true,
        hsk, if_false]
      simp only [mapUpd] at ih
      exact ih
    · simp only [mapUpd, List.map_cons, he, if_false, lookupKey]
      simp only [mapUpd] at ih
      by_cases hek : e.1 = k
      · simp [hek]
      · simp only [hek, if_false]
        exact ih

theorem mapUpd_keys (l : Store) (sid : String) (f : Student → Student) :
    (mapUpd l sid f).map Prod.fst = l.map Prod.fst := by
  induction l with
  | nil => rfl
  | cons e rest ih =>
    simp only [mapUpd, List.map_cons] at ih ⊢
    by_cases he : e.1 = sid
    · simp [he, ih]
    · simp [he, ih]

theorem setField_created (s : Student) (f : String) (v : PyVal) :
    (setField s f v).created_at = s.created_at := by
  unfold setField
  repeat' split
  all_goals rfl

theorem setField_id (s : Student) (f : String) (v : PyVal) :
    (setField s f v).id = s.id := by
  unfold setField
  repeat' split
  all_goals rfl

theorem applyFields_created (kw : List (String × PyVal)) :
    ∀ s : Student, (applyFields s kw).created_at = s.created_at := by
  induction kw with
  | nil => intro s; rfl
  | cons p rest ih =>
    intro s
    rw [show applyFields s (p :: rest) =
      applyFields (if valid_fields.contains p.1 && !(p.2 == PyVal.none)
        then setField s p.1 p.2 else s) rest from rfl]
    rw [ih]
    split
    · exact setField_created s p.1 p.2
    · rfl

theorem applyFields_id (kw : List (String × PyVal)) :
    ∀ s : Student, (applyFields s kw).id = s.id := by
  induction kw with
  | nil => intro s; rfl
  | cons p rest ih =>
    intro s
    rw [show applyFields s (p :: rest) =
      applyFields (if valid_fields.contains p.1 && !(p.2 == PyVal.none)
        then setField s p.1 p.2 else s) rest from rfl]
    rw [ih]
    split
    · exact setField_id s p.1 p.2
    · rfl

theorem applyUpdate_created (s : Student) (kw : List (String × PyVal))
    (now : String) : (applyUpdate s kw now).created_at = s.created_at :=
  applyFields_created kw s

theorem applyUpdate_id (s : Student) (kw : List (String × PyVal))
    (now : String) : (applyUpdate s kw now).id = s.id :=
  applyFields_id kw s

theorem applyUpdate_updated (s : Student) (kw : List (String × PyVal))
    (now : String) : (applyUpdate s kw now).updated_at = PyVal.str now := rfl

theorem applyFields_nop (kw : List (String × PyVal))
    (h : ∀ p ∈ kw, p.2 = PyVal.none ∨ valid_fields.contains p.1 = false) :
    ∀ s : Student, applyFields s kw = s := by
  induction kw with
  | nil => intro s; rfl
  | cons p rest ih =>
    intro s
    have hcond : (valid_fields.contains p.1 && !(p.2 == PyVal.none)) = false := by
      rcases h p (List.mem_cons_self p rest) with hv | hf
      · rw [hv]
        simp
      · rw [hf]
        rfl
    rw [show applyFields s (p :: rest) =
      applyFields (if valid_fields.contains p.1 && !(p.2 == PyVal.none)
        then setField s p.1 p.2 else s) rest from rfl]
    rw [hcond]
    exact ih (fun q hq => h q (List.mem_cons_of_mem p hq)) s

theorem applyFields_grade (s : Student) (g : PyVal) (hg : g ≠ PyVal.none) :
    applyFields s [("grade", g)] = { s with grade := g } := by
  have hb : (g == PyVal.none) = false := beq_eq_false_iff_ne.mpr hg
  show applyFields (if valid_fields.contains "grade" && !(g == PyVal.none)
    then setField s "grade" g else s) [] = { s with grade := g }
  rw [hb]
  rfl

theorem mapUpd_id_inv (l : Store) (sid : String) (f : Student → Student)
    (h : ∀ e ∈ l, e.2.id = PyVal.str e.1)
    (hf : ∀ s : Student, (f s).id = s.id ∨ (f s).id = PyVal.str sid) :
    ∀ e ∈ mapUpd l sid f, e.2.id = PyVal.str e.1 := by
  intro e2 he2
  rcases List.mem_map.mp he2 with ⟨e, he, heq⟩
  by_cases hs : e.1 = sid
  · rw [if_pos hs] at heq
    subst heq
    rcases hf e.2 with hid | hid
    · rw [hid]
      exact h e he
    · rw [hid, hs]
  · rw [if_neg hs] at heq
    subst heq
    exact h e he

theorem StoreInv_dictInsert (st : Store) (sid : String) (v : Student)
    (hv : v.id = PyVal.str sid)
    (h1 : ∀ e ∈ st, e.2.id = PyVal.str e.1)
    (h2 : (st.map Prod.fst).Nodup) :
    (∀ e ∈ dictInsert st sid v, e.2.id = PyVal.str e.1) ∧
      ((dictInsert st sid v).map Prod.fst).Nodup := by
  rw [dictInsert]
  rcases hb : hasKey st sid with _ | _
  · simp only [Bool.false_eq_true, if_false]
    constructor
    · intro e he
      rcases List.mem_append.mp he with he | he
      · exact h1 e he
      · rcases List.mem_singleton.mp he with rfl
        exact hv
    · rw [List.map_append]
      apply List.nodup_append.mpr
      refine ⟨h2, List.nodup_singleton _, ?_⟩
      intro a ha hmem
      rcases List.mem_singleton.mp hmem with rfl
      exact absurd ((hasKey_iff st a).mpr ha) (by rw [hb]; exact Bool.false_ne_true)
  · simp only [if_true]
    constructor
    · exact mapUpd_id_inv st sid (fun _ => v) h1 (fun s => Or.inr hv)
    · rw [mapUpd_keys]
      exact h2

/-! ## Lemmas about search -/

theorem critFails_not_truthy (s : Student) (k : String) (v : PyVal)
    (h : pyTruthy v = false) : critFails s k v = false := by
  rw [critFails]
  cases getField s k with
  | none => rfl
  | some fv =>
    simp only [h, Bool.false_eq_true, if_false]

theorem matchesAll_skip (s : Student) (k : String) (v : PyVal)
    (h : pyTruthy v = false) (pre post : List (String × PyVal)) :
    matchesAll s (pre ++ (k, v) :: post) = matchesAll s (pre ++ post) := by
  induction pre with
  | nil =>
    show matchesAll s ((k, v) :: post) = matchesAll s post
    rw [matchesAll, critFails_not_truthy s k v h]
    rfl
  | cons q rest ih =>
    rcases q with ⟨k2, v2⟩
    rw [List.cons_append, List.cons_append, matchesAll, matchesAll, ih]

theorem matchesAll_pair (s : Student) (k1 k2 : String) (v1 v2 : PyVal) :
    matchesAll s [(k1, v1), (k2, v2)] =
      (!critFails s k1 v1 && !critFails s k2 v2) := by
  rcases h1 : critFails s k1 v1 with _ | _ <;>
    rcases h2 : critFails s k2 v2 with _ | _ <;>
      simp [matchesAll, h1, h2]

/-! ## Lemmas about statistics -/

theorem distCount_mapInc_ne (acc : List (PyVal × Nat)) (g h : PyVal)
    (hne : h ≠ g) :
    distCount (acc.map (fun p => if p.1 = h then (p.1, p.2 + 1) else p)) g =
      distCount acc g := by
  induction acc with
  | nil => rfl
  | cons e rest ih =>
    by_cases heg : e.1 = g
    · have hfh : ¬ e.1 = h := by rw [heg]; exact fun h2 => hne h2.symm
      simp only [List.map_cons, if_neg hfh, distCount, if_pos heg]
    · by_cases hfh : e.1 = h
      · simp only [List.map_cons, if_pos hfh, distCount, if_neg heg, ih]
      · simp only [List.map_cons, if_neg hfh, distCount, if_neg heg, ih]

theorem distCount_mapInc_self (acc : List (PyVal × Nat)) (g : PyVal)
    (hany : acc.any (fun p => p.1 == g) = true) :
    distCount (acc.map (fun p => if p.1 = g then (p.1, p.2 + 1) else p)) g =
      distCount acc g + 1 := by
  induction acc with
  | nil => simp at hany
  | cons e rest ih =>
    by_cases heg : e.1 = g
    · simp only [List.map_cons, if_pos heg, distCount, if_pos heg]
    · have hrest : rest.any (fun p => p.1 == g) = true := by
        rcases List.any_eq_true.mp hany with ⟨p, hp, hpg⟩
        rcases List.mem_cons.mp hp with rfl | hp2
        · exact absurd (beq_iff_eq.mp hpg) heg
        · exact List.any_eq_true.mpr ⟨p, hp2, hpg⟩
      simp only [List.map_cons, if_neg heg, distCount, if_neg heg, ih hrest]

theorem distCount_append_ne (acc : List (PyVal × Nat)) (g h : PyVal)
    (hne : h ≠ g) :
    distCount (acc ++ [(h, 1)]) g = distCount acc g := by
  induction acc with
  | nil =>
    show distCount [(h, 1)] g = 0
    simp [distCount, hne]
  | cons e rest ih =>
    by_cases heg : e.1 = g
    · simp only [List.cons_append, distCount, if_pos heg]
    · simp only [List.cons_append, distCount, if_neg heg]
      exact ih

theorem distCount_zero_of_absent (acc : List (PyVal × Nat)) (g : PyVal)
    (h : acc.any (fun p => p.1 == g) = false) : distCount acc g = 0 := by
  induction acc with
  | nil => rfl
  | cons e rest ih =>
    rcases Bool.or_eq_false_iff.mp ((List.any_cons ▸ h : _)) with ⟨h1, h2⟩
    rw [distCount, if_neg (by exact fun h3 => by simp [h3] at h1), ih h2]

theorem distCount_append_self (acc : List (PyVal × Nat)) (g : PyVal)
    (h : acc.any (fun p => p.1 == g) = false) :
    distCount (acc ++ [(g, 1)]) g = 1 := by
  induction acc with
  | nil => simp [distCount]
  | cons e rest ih =>
    rcases Bool.or_eq_false_iff.mp ((List.any_cons ▸ h : _)) with ⟨h1, h2⟩
    rw [List.cons_append, distCount,
      if_neg (by exact fun h3 => by simp [h3] at h1), ih h2]

theorem distCount_bump (acc : List (PyVal × Nat)) (g h : PyVal) :
    distCount (bumpGrade acc h) g =
      distCount acc g + (if h = g then 1 else 0) := by
  by_cases hg : h = g
  · subst hg
    rw [if_pos rfl, bumpGrade]
    rcases hany : acc.any (fun p => p.1 == h) with _ | _
    · simp only [Bool.false_eq_true, if_false]
      rw [distCount_append_self acc h hany, distCount_zero_of_absent acc h hany]
    · simp only [if_true]
      exact distCount_mapInc_self acc h hany
  · rw [if_neg hg, Nat.add_zero, bumpGrade]
    split
    · exact distCount_mapInc_ne acc g h hg
    · exact distCount_append_ne acc g h hg

theorem distCount_foldl (gs : List PyVal) :
    ∀ (acc : List (PyVal × Nat)) (g : PyVal),
      distCount (gs.foldl bumpGrade acc) g =
        distCount acc g + gs.count g := by
  induction gs with
  | nil => intro acc g; simp [List.count_nil]
  | cons h t ih =>
    intro acc g
    have hc : List.count g (h :: t) = List.count g t + (if h = g then 1 else 0) := by
      rw [List.count_cons]
      by_cases hg : h = g
      · simp [hg]
      · simp [hg, beq_eq_false_iff_ne.mpr hg]
    rw [List.foldl_cons, ih (bumpGrade acc h) g, distCount_bump acc g h, hc]
    omega

theorem distCount_gradeDist (store : Store) (g : PyVal) :
    distCount (gradeDist store) g = (store.map (fun e => e.2.grade)).count g := by
  rw [gradeDist, distCount_foldl]
  show 0 + (store.map (fun e => e.2.grade)).count g =
    (store.map (fun e => e.2.grade)).count g
  omega

/-! ## Lemmas about the JSON document -/

theorem jToPv_pvToJ (v : PyVal) : jToPv (pvToJ v) = some v := by
  cases v <;> rfl

theorem jToStudent_studentToJ (s : Student) :
    jToStudent (studentToJ s) = some s := by
  rcases s with ⟨a, b, c, d, e, f, g, h⟩
  simp [studentToJ, jToStudent, jToPv_pvToJ]

theorem entriesFromJ_map (store : Store) :
    entriesFromJ (store.map (fun e => (e.1, studentToJ e.2))) = some store := by
  induction store with
  | nil => rfl
  | cons e rest ih =>
    simp only [List.map_cons, entriesFromJ, jToStudent_studentToJ e.2, ih]

/-! ## The claims -/

/-- C8: save/load round-trip — serializing any store with
`save_records` and reading the document back with `load_records`
yields the identical mapping, every field of every record included. -/
theorem claim_C8_roundtrip (store : Store) :
    load_records (save_records store) = some store := by
  rw [save_records, load_records]
  exact entriesFromJ_map store

/-- C1 (evaluation at the failing input): the spec's matching rule
says a string criterion matches by case-insensitive substring
containment, and `"ali"` is indeed such a substring of the stringified
`name` field `"Alice"` of the store's only record — yet
`search_students` returns no record, because after the containment
test passes, the `elif student[key] != value` branch still compares
the field with the criterion for exact equality. -/
theorem claim_C1_search_eval :
    search_students aliceStore [("name", PyVal.str "ali")] = [] ∧
    getField (mkStudent "STU001" "Alice" 20 "A") "name" =
      some (PyVal.str "Alice") ∧
    lowerContainsIn "ali" (pyStr (PyVal.str "Alice")) = true :=
  ⟨rfl, rfl, rfl⟩

/-- C2 (counterexample): issue `STU001` and `STU002`, delete the
record with the maximum suffix (`STU002`), add again — the new
identifier is `STU002` once more, so its suffix is *not* strictly
greater than every previously issued suffix: the suffix is reused. -/
theorem claim_C2_counterexample :
    (do
      let r1 ← add_student emptyState (PyVal.str "A") (PyVal.int 10)
        (PyVal.str "A") PyVal.none PyVal.none "t"
      let r2 ← add_student r1.1 (PyVal.str "B") (PyVal.int 11)
        (PyVal.str "B") PyVal.none PyVal.none "t"
      let r4 ← add_student (delete_student r2.1 r2.2).1 (PyVal.str "C")
        (PyVal.int 12) (PyVal.str "C") PyVal.none PyVal.none "t"
      pure (r2.2, r4.2) : Option (String × String)) =
      some ("STU002", "STU002") := by
  rfl

/-- C2 (amended): the generated suffix is one more than the maximum
suffix *currently present*, hence strictly greater than every suffix
present in the store at the time of the call (so a gap left by
deleting a non-maximal record is never refilled); it need not exceed
suffixes that were issued earlier but have since been deleted. -/
theorem claim_C2_amended (store : Store) (l : List Int)
    (h : suffixList (store.map Prod.fst) = some l) :
    ∃ m : Int, generate_id store = some (formatId m) ∧ ∀ x ∈ l, x < m := by
  cases store with
  | nil =>
    have hl : some ([] : List Int) = some l := h
    have hl2 : l = [] := (Option.some.inj hl).symm
    subst hl2
    refine ⟨1, ?_, ?_⟩
    · show some "STU001" = some (formatId 1)
      rw [formatId_one]
    · intro x hx
      simp at hx
  | cons e rest =>
    refine ⟨newIdOf l, ?_, ?_⟩
    · show (match suffixList ((e :: rest).map Prod.fst) with
        | Option.none => Option.none
        | some ids => some (formatId (newIdOf ids))) = some (formatId (newIdOf l))
      rw [h]
    · intro x hx
      cases l with
      | nil => simp at hx
      | cons y ys =>
        show x < ys.foldl max y + 1
        rcases List.mem_cons.mp hx with rfl | hx2
        · have := le_foldl_max ys x
          omega
        · have := mem_le_foldl_max ys y x hx2
          omega

/-- C2 (witness for the amended claim at a concrete store). -/
theorem claim_C2_amended_witness :
    ∃ m : Int, generate_id aliceStore = some (formatId m) ∧
      ∀ x ∈ [(1 : Int)], x < m :=
  claim_C2_amended aliceStore [1] (by rfl)

/-- C3: updating a found record always succeeds, refreshes only that
record (every other key reads back unchanged), applies exactly
`applyUpdate`, never alters `created_at`, always sets `updated_at`;
a grade-only update changes only the grade (and `updated_at`); pairs
with a null value or a field outside the allow-list are ignored. -/
theorem claim_C3_update_frame (st : MState) (sid : String) (s : Student)
    (now : String) (h : lookupKey st.students sid = some s) :
    (∀ kwargs : List (String × PyVal),
      (update_student st sid kwargs now).2 = true ∧
      lookupKey (update_student st sid kwargs now).1.students sid =
        some (applyUpdate s kwargs now) ∧
      (∀ k, k ≠ sid →
        lookupKey (update_student st sid kwargs now).1.students k =
          lookupKey st.students k) ∧
      (applyUpdate s kwargs now).created_at = s.created_at ∧
      (applyUpdate s kwargs now).updated_at = PyVal.str now) ∧
    (∀ g, g ≠ PyVal.none →
      applyUpdate s [("grade", g)] now =
        { s with grade := g, updated_at := PyVal.str now }) ∧
    (∀ kwargs : List (String × PyVal),
      (∀ p ∈ kwargs, p.2 = PyVal.none ∨ valid_fields.contains p.1 = false) →
      applyUpdate s kwargs now = { s with updated_at := PyVal.str now }) := by
  have hk : hasKey st.students sid = true := hasKey_of_lookup _ _ _ h
  have hupd : ∀ kwargs : List (String × PyVal),
      update_student st sid kwargs now =
        (save ⟨mapUpd st.students sid (fun s2 => applyUpdate s2 kwargs now),
          st.file⟩, true) := by
    intro kwargs
    rw [update_student, if_pos hk]
  refine ⟨?_, ?_, ?_⟩
  · intro kwargs
    refine ⟨by rw [hupd], ?_, ?_, applyUpdate_created s kwargs now,
      applyUpdate_updated s kwargs now⟩
    · rw [hupd]
      show lookupKey (mapUpd st.students sid
        (fun s2 => applyUpdate s2 kwargs now)) sid = _
      rw [lookupKey_mapUpd_self, h]
      rfl
    · intro k hks
      rw [hupd]
      show lookupKey (mapUpd st.students sid
        (fun s2 => applyUpdate s2 kwargs now)) k = lookupKey st.students k
      exact lookupKey_mapUpd_ne st.students sid k _ hks
  · intro g hg
    show { applyFields s [("grade", g)] with updated_at := PyVal.str now } = _
    rw [applyFields_grade s g hg]
  · intro kwargs hkw
    show { applyFields s kwargs with updated_at := PyVal.str now } = _
    rw [applyFields_nop kwargs hkw s]

/-- C3 (witness): a grade-only update of Alice's record. -/
theorem claim_C3_witness :
    applyUpdate (mkStudent "STU001" "Alice" 20 "A")
        [("grade", PyVal.str "B")] "u" =
      ⟨PyVal.str "STU001", PyVal.str "Alice", PyVal.int 20, PyVal.str "B",
        PyVal.none, PyVal.none, PyVal.str "2024-01-01 00:00:00",
        PyVal.str "u"⟩ :=
  (claim_C3_update_frame ⟨aliceStore, aliceStore⟩ "STU001"
    (mkStudent "STU001" "Alice" 20 "A") "u" (by rfl)).2.1
    (PyVal.str "B") (by decide)

/-- C4: update and delete of an absent identifier return the
not-found signal `false` and leave the whole state — the in-memory
mapping and the persisted file — untouched. -/
theorem claim_C4_notfound (st : MState) (sid : String)
    (h : sid ∉ st.students.map Prod.fst) :
    (∀ (kwargs : List (String × PyVal)) (now : String),
      update_student st sid kwargs now = (st, false)) ∧
    delete_student st sid = (st, false) := by
  have hk : hasKey st.students sid = false := hasKey_eq_false _ _ h
  constructor
  · intro kwargs now
    rw [update_student, if_neg (by rw [hk]; exact Bool.false_ne_true)]
  · rw [delete_student, if_neg (by rw [hk]; exact Bool.false_ne_true)]

/-- C4 (witness): an unknown id on the one-record store. -/
theorem claim_C4_witness :
    update_student ⟨aliceStore, aliceStore⟩ "STU999"
        [("age", PyVal.int 5)] "u" = (⟨aliceStore, aliceStore⟩, false) ∧
    delete_student ⟨aliceStore, aliceStore⟩ "STU999" =
      (⟨aliceStore, aliceStore⟩, false) :=
  ⟨(claim_C4_notfound ⟨aliceStore, aliceStore⟩ "STU999" (by decide)).1
      [("age", PyVal.int 5)] "u",
    (claim_C4_notfound ⟨aliceStore, aliceStore⟩ "STU999" (by decide)).2⟩

/-- C9: the key-consistency invariant — every record's `id` field
equals its mapping key and keys are pairwise distinct — is preserved
by add, update and delete, and an update never changes the `id` of
the record it touches (the `id` field is outside the allow-list). -/
theorem claim_C9_invariant (st : MState) (hInv : StoreInv st) :
    (∀ (name age grade email phone : PyVal) (now : String) (st2 : MState)
        (i : String),
      add_student st name age grade email phone now = some (st2, i) →
      StoreInv st2) ∧
    (∀ (sid : String) (kwargs : List (String × PyVal)) (now : String),
      StoreInv (update_student st sid kwargs now).1) ∧
    (∀ sid : String, StoreInv (delete_student st sid).1) ∧
    (∀ (sid : String) (kwargs : List (String × PyVal)) (now : String)
        (s : Student),
      lookupKey st.students sid = some s →
      lookupKey (update_student st sid kwargs now).1.students sid =
        some (applyUpdate s kwargs now) ∧
      (applyUpdate s kwargs now).id = s.id) := by
  obtain ⟨h1, h2⟩ := hInv
  refine ⟨?_, ?_, ?_, ?_⟩
  · intro name age grade email phone now st2 i hadd
    rw [add_student] at hadd
    cases hgen : generate_id st.students with
    | none =>
      rw [hgen] at hadd
      exact absurd hadd (by simp)
    | some sid =>
      rw [hgen] at hadd
      have hpair := Option.some.inj hadd
      have hst2 : st2 = save ⟨dictInsert st.students sid
          ⟨PyVal.str sid, name, age, grade, email, phone,
            PyVal.str now, PyVal.str now⟩, st.file⟩ :=
        ((Prod.ext_iff.mp hpair).1).symm
      rw [hst2]
      exact StoreInv_dictInsert st.students sid _ rfl h1 h2
  · intro sid kwargs now
    rw [update_student]
    split
    · constructor
      · exact mapUpd_id_inv st.students sid _ h1
          (fun s2 => Or.inl (applyUpdate_id s2 kwargs now))
      · show ((mapUpd st.students sid
            (fun s2 => applyUpdate s2 kwargs now)).map Prod.fst).Nodup
        rw [mapUpd_keys]
        exact h2
    · exact ⟨h1, h2⟩
  · intro sid
    rw [delete_student]
    split
    · constructor
      · intro e he
        exact h1 e (List.mem_of_mem_filter he)
      · show ((st.students.filter (fun e => !(e.1 == sid))).map Prod.fst).Nodup
        exact (((List.filter_sublist st.students).map Prod.fst)).nodup h2
    · exact ⟨h1, h2⟩
  · intro sid kwargs now s hl
    have hk : hasKey st.students sid = true := hasKey_of_lookup _ _ _ hl
    rw [update_student, if_pos hk]
    constructor
    · show lookupKey (mapUpd st.students sid
        (fun s2 => applyUpdate s2 kwargs now)) sid = _
      rw [lookupKey_mapUpd_self, hl]
      rfl
    · exact applyUpdate_id s kwargs now

/-- C9 (witness): the invariant survives an update that even tries to
set the `id` field. -/
theorem claim_C9_witness :
    StoreInv (update_student ⟨aliceStore, aliceStore⟩ "STU001"
      [("id", PyVal.str "X"), ("grade", PyVal.str "B")] "u").1 :=
  (claim_C9_invariant ⟨aliceStore, aliceStore⟩ (by constructor <;> decide)).2.1
    "STU001" [("id", PyVal.str "X"), ("grade", PyVal.str "B")] "u"

/-- C7: search criteria are conjunctive — a two-criteria search keeps
exactly the records on which neither criterion fails — and a criterion
with a falsy (empty/null) value anywhere in the criteria set is
skipped: the result equals the search without it. -/
theorem claim_C7_conjunction :
    (∀ (store : Store) (k1 k2 : String) (v1 v2 : PyVal),
      search_students store [(k1, v1), (k2, v2)] =
        (get_all_students store).filter
          (fun s => !critFails s k1 v1 && !critFails s k2 v2)) ∧
    (∀ (store : Store) (pre post : List (String × PyVal)) (k : String)
        (v : PyVal), pyTruthy v = false →
      search_students store (pre ++ (k, v) :: post) =
        search_students store (pre ++ post)) := by
  constructor
  · intro store k1 k2 v1 v2
    rw [search_students, get_all_students]
    apply List.filter_congr
    intro s _
    exact matchesAll_pair s k1 k2 v1 v2
  · intro store pre post k v hv
    rw [search_students, search_students]
    apply List.filter_congr
    intro s _
    exact matchesAll_skip s k v hv pre post

/-- C7 (witness): a `None`-valued grade criterion is neutral. -/
theorem claim_C7_witness :
    search_students aliceStore
        ([] ++ ("grade", PyVal.none) :: [("name", PyVal.str "Alice")]) =
      search_students aliceStore ([] ++ [("name", PyVal.str "Alice")]) :=
  claim_C7_conjunction.2 aliceStore [] [("name", PyVal.str "Alice")]
    "grade" PyVal.none (by rfl)

theorem roundHalfEven_intCast (n : Int) : roundHalfEven ((n : Int) : ℚ) = n := by
  simp only [roundHalfEven, Int.floor_intCast, sub_self]
  norm_num

theorem round2_zero : round2 (0 : ℚ) = 0 := by
  have h2 : (0 : ℚ) * 100 = ((0 : Int) : ℚ) := by norm_num
  rw [round2, h2, roundHalfEven_intCast]
  norm_num

theorem round2_concrete : round2 (((45 : Int) : ℚ) / ((3 : Nat) : ℚ)) = 15 := by
  have h1 : ((45 : Int) : ℚ) / ((3 : Nat) : ℚ) = 15 := by norm_num
  have h2 : (15 : ℚ) * 100 = ((1500 : Int) : ℚ) := by norm_num
  rw [h1, round2, h2, roundHalfEven_intCast]
  norm_num

/-- C5: statistics — on the empty store the totals are all zero with
an empty distribution (no division happens); on any store whose ages
are integers the result holds the record count, the rounded arithmetic
mean of the ages, and a distribution mapping each grade to the number
of records holding it; and on the concrete store with ages 10, 20, 15
and grades A, A, B the mean is 15 and the distribution {A: 2, B: 1}. -/
theorem claim_C5_statistics :
    (get_statistics [] = some ⟨0, 0, []⟩) ∧
    (∀ (store : Store) (ages : List Int), agesOf store = some ages →
      ∃ stt : Stats, get_statistics store = some stt ∧
        stt.total_students = store.length ∧
        stt.average_age =
          round2 (((ages.foldl (· + ·) 0 : Int) : ℚ) / ((store.length : Nat) : ℚ)) ∧
        ∀ g : PyVal, distCount stt.grade_distribution g =
          (store.map (fun e => e.2.grade)).count g) ∧
    ((get_statistics statsStore).map (fun stt => stt.total_students) = some 3 ∧
      (get_statistics statsStore).map (fun stt => stt.average_age) = some 15 ∧
      (get_statistics statsStore).map (fun stt => stt.grade_distribution) =
        some [(PyVal.str "A", 2), (PyVal.str "B", 1)]) := by
  refine ⟨rfl, ?_, ?_, ?_, ?_⟩
  · intro store ages hag
    cases store with
    | nil =>
      have hae : ages = [] := (Option.some.inj hag).symm
      subst hae
      refine ⟨⟨0, 0, []⟩, rfl, rfl, ?_, ?_⟩
      · have hz : ((List.foldl (· + ·) 0 ([] : List Int) : Int) : ℚ) /
            ((([] : Store).length : Nat) : ℚ) = 0 := by norm_num
        rw [hz, round2_zero]
      · intro g
        rfl
    | cons e rest =>
      refine ⟨⟨(e :: rest).length,
        round2 (((ages.foldl (· + ·) 0 : Int) : ℚ) /
          (((e :: rest).length : Nat) : ℚ)), gradeDist (e :: rest)⟩,
        ?_, rfl, rfl, ?_⟩
      · simp only [get_statistics, List.isEmpty_cons, Bool.false_eq_true, if_false]
        rw [hag]
      · intro g
        exact distCount_gradeDist (e :: rest) g
  · rfl
  · show some (round2 (((45 : Int) : ℚ) / ((3 : Nat) : ℚ))) = some 15
    rw [round2_concrete]
  · rfl

/-- C5 (witness): the general clause at the concrete store. -/
theorem claim_C5_witness :
    ∃ stt : Stats, get_statistics statsStore = some stt ∧
      stt.total_students = statsStore.length ∧
      stt.average_age =
        round2 (((([10, 20, 15] : List Int).foldl (· + ·) 0 : Int) : ℚ) /
          ((statsStore.length : Nat) : ℚ)) ∧
      ∀ g : PyVal, distCount stt.grade_distribution g =
        (statsStore.map (fun e => e.2.grade)).count g :=
  claim_C5_statistics.2.1 statsStore [10, 20, 15] (by rfl)

/-- C6: identifier generation is max-plus-one — the empty store yields
suffix 1 (`STU001`); a non-empty store with parseable prefixed keys
yields one more than the maximum suffix present; after `N` adds on an
initially empty store the keys are exactly `STU001 … STU00N`, the next
generated id is `STU` with suffix `N + 1`, and the maximum suffix
present equals `N`. -/
theorem claim_C6_max_plus_one :
    (generate_id [] = some (mkIdNat 1)) ∧
    (∀ (store : Store) (l : List Int), store ≠ [] →
      suffixList (store.map Prod.fst) = some l → l ≠ [] →
      ∃ M : Int, M ∈ l ∧ (∀ y ∈ l, y ≤ M) ∧
        generate_id store = some (formatId (M + 1))) ∧
    (∀ n : Nat, (addN n).students.map Prod.fst = idsUpTo n) ∧
    (∀ n : Nat, generate_id (addN n).students = some (mkIdNat (n + 1))) ∧
    (∀ n : Nat, 0 < n →
      suffixList ((addN n).students.map Prod.fst) = some (suffInts n) ∧
      (n : Int) ∈ suffInts n ∧ ∀ x ∈ suffInts n, x ≤ (n : Int)) := by
  refine ⟨rfl, ?_, addN_keys, generate_id_addN, ?_⟩
  · intro store l hst hsl hl
    cases store with
    | nil => exact absurd rfl hst
    | cons e rest =>
      cases l with
      | nil => exact absurd rfl hl
      | cons x xs =>
        refine ⟨xs.foldl max x, ?_, ?_, ?_⟩
        · rcases foldl_max_attained xs x with h | h
          · rw [h]; exact List.mem_cons_self _ _
          · exact List.mem_cons_of_mem x h
        · intro y hy
          rcases List.mem_cons.mp hy with rfl | hy2
          · exact le_foldl_max xs y
          · exact mem_le_foldl_max xs x y hy2
        · show (match suffixList ((e :: rest).map Prod.fst) with
            | Option.none => Option.none
            | some ids => some (formatId (newIdOf ids))) =
            some (formatId (xs.foldl max x + 1))
          rw [hsl]
          rfl
  · intro n hn
    refine ⟨?_, ?_, ?_⟩
    · rw [addN_keys, suffixList_idsUpTo]
    · rcases Nat.exists_eq_add_of_lt hn with ⟨m, hm⟩
      have hnm : n = m + 1 := by omega
      subst hnm
      apply List.mem_map.mpr
      refine ⟨m, List.mem_range.mpr (by omega), ?_⟩
      push_cast
      ring
    · intro x hx
      rcases List.mem_map.mp hx with ⟨i, hi, hix⟩
      have hilt : i < n := List.mem_range.mp hi
      rw [← hix]
      have : (i : Int) < (n : Int) := by exact_mod_cast hilt
      omega

/-- C6 (witness): the max-plus-one clause on the one-record store. -/
theorem claim_C6_witness :
    ∃ M : Int, M ∈ [(1 : Int)] ∧ (∀ y ∈ [(1 : Int)], y ≤ M) ∧
      generate_id aliceStore = some (formatId (M + 1)) :=
  claim_C6_max_plus_one.2.1 aliceStore [1] (by decide) (by rfl) (by decide)

/-- C10: `generate_id` (and hence `add_student`) can fail — on the
reachable store whose key `"STUdent"` matches the prefix but has a
non-numeric suffix, the `int(...)` conversion raises (the store is
reachable because the persisted document round-trips arbitrary
keys) — and it succeeds whenever every key starting with `STU`
continues with a parseable decimal integer. -/
theorem claim_C10_precondition :
    generate_id dentStore = Option.none ∧
    load_records (save_records dentStore) = some dentStore ∧
    (∀ store : Store,
      (∀ k ∈ store.map Prod.fst, startsWithSTU k = true →
        (pyInt (k.data.drop 3)).isSome) →
      (generate_id store).isSome) := by
  refine ⟨rfl, rfl, ?_⟩
  intro store h
  cases store with
  | nil => rfl
  | cons e rest =>
    rcases Option.isSome_iff_exists.mp
      (suffixList_isSome ((e :: rest).map Prod.fst) h) with ⟨l, hl⟩
    show (match suffixList ((e :: rest).map Prod.fst) with
      | Option.none => Option.none
      | some ids => some (formatId (newIdOf ids))).isSome = true
    rw [hl]
    rfl

/-- C10 (witness): the precondition clause on the one-record store. -/
theorem claim_C10_witness : (generate_id aliceStore).isSome = true :=
  claim_C10_precondition.2.2 aliceStore (by decide)
